import Mathlib

/-!
A verification development for the mol* plugin state command handlers
(`registerDefault` and friends): the behavior lifecycle hook, the ghost-node
cascade removal, subtree visibility propagation, and the snapshot
persistence subsystem (archive packaging, unpackaging, remote upload,
apply-by-id).  Each operation from the source is embedded as an executable
Lean definition; theorems settle the specified properties.
-/

set_option maxHeartbeats 1000000

/-! ## Object model and the behavior lifecycle hook (SyncBehaviors) -/

/-- Closed tagged-variant object type; the discriminant models the
`PluginStateObject` type probes (`SO.isBehavior`, ...). -/
inductive ObjTag where
  | behavior
  | representation3D
  | structureSelections
  | plain
deriving DecidableEq

/-- A state object: a type tag plus an opaque payload. -/
structure PObj where
  tag : ObjTag
  payload : Nat
deriving DecidableEq

/-- Embeds `SO.isBehavior(o)` for a present object. -/
def isBehaviorObj (o : PObj) : Bool :=
  match o.tag with
  | ObjTag.behavior => true
  | _ => false

/-- Embeds `SO.isBehavior(o)` where `o` may be undefined. -/
def isBehaviorOpt : Option PObj → Bool
  | some o => isBehaviorObj o
  | none => false

/-- The `updated` event's action field (`'recreate' | 'in-place'`). -/
inductive UpdateAction where
  | recreate
  | inPlace
deriving DecidableEq

/-- Lifecycle notifications delivered through
`ctx.events.state.object.{created,removed,updated}`. -/
inductive StateObjectEvent where
  | created (ref : String) (obj : PObj)
  | removed (ref : String) (obj : Option PObj)
  | updated (ref : String) (action : UpdateAction) (oldObj : Option PObj) (obj : Option PObj)
deriving DecidableEq

/-- A call made on a behavior object's `data` by the hook. -/
inductive BehaviorCall where
  | register (ref : String)
  | unregister
deriving DecidableEq

/-- Embeds the three subscriptions installed by `SyncBehaviors`: the list of
register/unregister calls the hook makes for one delivered event, in call
order. -/
def syncBehaviorCalls : StateObjectEvent → List BehaviorCall
  | StateObjectEvent.created ref obj =>
      if isBehaviorObj obj then [BehaviorCall.register ref] else []
  | StateObjectEvent.removed _ obj =>
      if isBehaviorOpt obj then [BehaviorCall.unregister] else []
  | StateObjectEvent.updated ref act oldObj obj =>
      match act with
      | UpdateAction.recreate =>
          (if isBehaviorOpt oldObj then [BehaviorCall.unregister] else []) ++
          (if isBehaviorOpt obj then [BehaviorCall.register ref] else [])
      | UpdateAction.inPlace => []

/-! ## Snapshot effects (shared by the Apply and OpenFile handlers) -/

/-- Opaque binary asset payload and metadata.  The metadata string stands for
the serialized `Asset` object; the id travels separately where the code
separates it. -/
structure AssetEntry where
  id : String
  meta : String
  blob : List Nat
deriving DecidableEq

/-- Abstract content of a file or archive member, as observed through the
platform codecs (`readFromFile` + `JSON.parse`): `snap` is text that parses
as a snapshot payload, `idx` text that parses as an `[id, metadata]` asset
index, `bin` opaque binary bytes, `garbage` bytes that fail to parse. -/
inductive Val where
  | snap (s : String)
  | idx (entries : List (String × String))
  | bin (b : List Nat)
  | garbage
deriving DecidableEq

/-- Observable side effects of the snapshot command handlers. -/
inductive SnapshotEffect where
  | register (id : String) (meta : String) (file : Option Val)
  | setSnapshot (s : String)
  | logError
deriving DecidableEq

/-! ## Snapshot manager: setCurrent and the Apply handler -/

/-- One entry of the snapshot manager's ordered list. -/
structure SnapshotEntry where
  id : String
  data : String
deriving DecidableEq

/-- The snapshot manager's list state. -/
structure SnapshotList where
  entries : List SnapshotEntry
  current : Option String
deriving DecidableEq

/-- Modelled from the spec: `setCurrent(id)` (PluginStateSnapshotManager, not
under src) returns the entry's payload if found, else null, and marks the
found entry current. -/
def setCurrent (m : SnapshotList) (i : String) : Option String × SnapshotList :=
  match m.entries.find? (fun e => e.id == i) with
  | some e => (some e.data, { m with current := some i })
  | none => (none, m)

/-- Embeds the `Snapshots.Apply` handler: `setCurrent(id)`, and if the result
is non-null, `setSnapshot` on the returned payload; otherwise no effect. -/
def applySnapshotCommand (m : SnapshotList) (i : String) :
    SnapshotList × List SnapshotEffect :=
  match setCurrent m i with
  | (none, m') => (m', [])
  | (some s, m') => (m', [SnapshotEffect.setSnapshot s])

/-! ## Remote upload (Snapshots.Upload handler) -/

/-- Modelled from the spec: the JSON body produced by `getRemoteSnapshot`
carries name, description, playOnLoad and the snapshot payload as `data`. -/
structure RemoteSnapshotBody where
  name : Option String
  description : Option String
  playOnLoad : Bool
  data : String
deriving DecidableEq

/-- The request issued by the Upload handler (the `fetch` call's URL and
init fields; `credentials = none` records that the init sets no
credentials option). -/
structure UploadRequest where
  url : String
  method : String
  mode : String
  referrer : String
  contentType : String
  credentials : Option String
  body : RemoteSnapshotBody
deriving DecidableEq

/-- Modelled from the spec: `urlCombine` (mol-util/url, not under src) joins
the server URL and a path. -/
def urlCombine (server path : String) : String := server ++ "/" ++ path

/-- Modelled from the spec: `getRemoteSnapshot` (snapshot manager, not under
src) packages `\x7b name, description, playOnLoad, data \x7d`. -/
def getRemoteSnapshot (name description : Option String) (playOnLoad : Bool)
    (d : String) : RemoteSnapshotBody :=
  ⟨name, description, playOnLoad, d⟩

/-- Embeds the `Snapshots.Upload` handler's `fetch` call.  `enc` stands for
the platform `encodeURIComponent`; `Option.getD ""` embeds `name || ''`. -/
def uploadRequest (enc : String → String) (name description : Option String)
    (playOnLoad : Bool) (serverUrl : String) (snapshotData : String) :
    UploadRequest :=
  { url := urlCombine serverUrl
      ("set?name=" ++ enc (name.getD "") ++ "&description=" ++ enc (description.getD ""))
  , method := "POST"
  , mode := "cors"
  , referrer := "no-referrer"
  , contentType := "application/json; charset=utf-8"
  , credentials := none
  , body := getRemoteSnapshot name description playOnLoad snapshotData }

/-! ## Theorems for the behavior hook -/

/-- Claim C2: for every lifecycle notification, a created event with a
behavior-typed object registers against the event's reference; a removed
event with a behavior-typed object unregisters; a recreate update
unregisters the old object's behavior strictly before registering the new
object's behavior; and no call is made for non-behavior objects or in-place
updates. -/
theorem syncBehaviors_lifecycle (r : String) (o : PObj) (o1 nw : Option PObj) :
    (isBehaviorObj o = true →
      syncBehaviorCalls (StateObjectEvent.created r o) = [BehaviorCall.register r]) ∧
    (isBehaviorObj o = false →
      syncBehaviorCalls (StateObjectEvent.created r o) = []) ∧
    (isBehaviorOpt o1 = true →
      syncBehaviorCalls (StateObjectEvent.removed r o1) = [BehaviorCall.unregister]) ∧
    (isBehaviorOpt o1 = false →
      syncBehaviorCalls (StateObjectEvent.removed r o1) = []) ∧
    (isBehaviorOpt o1 = true → isBehaviorOpt nw = true →
      syncBehaviorCalls (StateObjectEvent.updated r UpdateAction.recreate o1 nw) =
        [BehaviorCall.unregister, BehaviorCall.register r]) ∧
    (isBehaviorOpt o1 = true → isBehaviorOpt nw = false →
      syncBehaviorCalls (StateObjectEvent.updated r UpdateAction.recreate o1 nw) =
        [BehaviorCall.unregister]) ∧
    (isBehaviorOpt o1 = false → isBehaviorOpt nw = true →
      syncBehaviorCalls (StateObjectEvent.updated r UpdateAction.recreate o1 nw) =
        [BehaviorCall.register r]) ∧
    (isBehaviorOpt o1 = false → isBehaviorOpt nw = false →
      syncBehaviorCalls (StateObjectEvent.updated r UpdateAction.recreate o1 nw) = []) ∧
    (syncBehaviorCalls (StateObjectEvent.updated r UpdateAction.inPlace o1 nw) = []) := by
  refine ⟨?_, ?_, ?_, ?_, ?_, ?_, ?_, ?_, ?_⟩ <;>
    intros <;> simp_all [syncBehaviorCalls]

/-- Witness for C2: on a concrete recreate event with behavior-typed old and
new objects, the hook unregisters first and registers second. -/
theorem syncBehaviors_lifecycle_witness :
    syncBehaviorCalls
      (StateObjectEvent.updated "b1" UpdateAction.recreate
        (some ⟨ObjTag.behavior, 0⟩) (some ⟨ObjTag.behavior, 1⟩)) =
      [BehaviorCall.unregister, BehaviorCall.register "b1"] :=
  (syncBehaviors_lifecycle "b1" ⟨ObjTag.behavior, 0⟩
      (some ⟨ObjTag.behavior, 0⟩) (some ⟨ObjTag.behavior, 1⟩)).2.2.2.2.1
    (by decide) (by decide)

/-! ## Theorems for setCurrent / Apply -/

/-- Claim C8: `setCurrent(id)` returns the entry's payload exactly when an
entry with that id exists (marking it current), and the Apply handler calls
`setSnapshot` with that payload exactly when the id is found, doing nothing
when `setCurrent` returns null. -/
theorem setCurrent_apply (m : SnapshotList) (i : String) :
    (m.entries.find? (fun e => e.id == i) = none ↔ ∀ e ∈ m.entries, e.id ≠ i) ∧
    (∀ e, m.entries.find? (fun e => e.id == i) = some e →
      e ∈ m.entries ∧ e.id = i ∧
      setCurrent m i = (some e.data, { m with current := some i }) ∧
      applySnapshotCommand m i =
        ({ m with current := some i }, [SnapshotEffect.setSnapshot e.data])) ∧
    (m.entries.find? (fun e => e.id == i) = none →
      setCurrent m i = (none, m) ∧ applySnapshotCommand m i = (m, [])) := by
  refine ⟨?_, ?_, ?_⟩
  · rw [List.find?_eq_none]
    simp
  · intro e he
    refine ⟨List.mem_of_find?_eq_some he, ?_, ?_, ?_⟩
    · have := List.find?_some he
      simpa using this
    · simp [setCurrent, he]
    · simp [applySnapshotCommand, setCurrent, he]
  · intro he
    constructor
    · simp [setCurrent, he]
    · simp [applySnapshotCommand, setCurrent, he]

/-- Witness for C8: on a concrete two-entry list, applying by a present id
sets the snapshot and marks it current; the find succeeds on that entry. -/
theorem setCurrent_apply_witness :
    (SnapshotList.mk [⟨"a", "da"⟩, ⟨"b", "db"⟩] none).entries.find?
        (fun e => e.id == "b") = some ⟨"b", "db"⟩ ∧
    applySnapshotCommand (SnapshotList.mk [⟨"a", "da"⟩, ⟨"b", "db"⟩] none) "b" =
      ({ SnapshotList.mk [⟨"a", "da"⟩, ⟨"b", "db"⟩] none with current := some "b" },
        [SnapshotEffect.setSnapshot "db"]) :=
  ⟨by decide,
    ((setCurrent_apply (SnapshotList.mk [⟨"a", "da"⟩, ⟨"b", "db"⟩] none) "b").2.1
      ⟨"b", "db"⟩ (by decide)).2.2.2⟩

/-! ## Theorem for the Upload handler -/

/-- Claim C7: the upload request targets the server at path `set` with
URL-encoded name and description query parameters, uses the create (POST)
method, carries a JSON body with name, description, playOnLoad and the
snapshot payload as data, sets no credentials, and sends no referrer. -/
theorem upload_request_shape (enc : String → String) (name description : Option String)
    (playOnLoad : Bool) (serverUrl snapshotData : String) :
    (uploadRequest enc name description playOnLoad serverUrl snapshotData).url =
      serverUrl ++ "/" ++
        ("set?name=" ++ enc (name.getD "") ++ "&description=" ++ enc (description.getD "")) ∧
    (uploadRequest enc name description playOnLoad serverUrl snapshotData).method = "POST" ∧
    (uploadRequest enc name description playOnLoad serverUrl snapshotData).mode = "cors" ∧
    (uploadRequest enc name description playOnLoad serverUrl snapshotData).referrer =
      "no-referrer" ∧
    (uploadRequest enc name description playOnLoad serverUrl snapshotData).credentials =
      none ∧
    (uploadRequest enc name description playOnLoad serverUrl snapshotData).body =
      ⟨name, description, playOnLoad, snapshotData⟩ :=
  ⟨rfl, rfl, rfl, rfl, rfl, rfl⟩

/-! ## Subtree visibility (setSubtreeVisibility) -/

/-- Display flags of a cell (`cell.state`). -/
structure CellState where
  isHidden : Bool
  isCollapsed : Bool
  isGhost : Bool
deriving DecidableEq

/-- The cell-state table, keyed by reference. -/
def Cells : Type := String → CellState

/-- Modelled from the spec: the subtree of the state tree rooted at a node,
with children in insertion order (`StateTree` itself is outside src). -/
inductive VTree where
  | node (ref : String) (children : List VTree)

mutual

/-- Modelled from the spec: `StateTree.doPreOrder` visit order — a node,
then its children left to right. -/
def preOrderRefs : VTree → List String
  | VTree.node r cs => r :: preOrderRefsList cs

def preOrderRefsList : List VTree → List String
  | [] => []
  | t :: ts => preOrderRefs t ++ preOrderRefsList ts

end

/-- Modelled from the spec: `state.updateCellState(ref, { isHidden })` merges
the partial state into the cell's state, leaving other refs and other flags
unchanged. -/
def updateHidden (cells : Cells) (r : String) (v : Bool) : Cells :=
  fun x => if x = r then { cells x with isHidden := v } else cells x

/-- Embeds `setSubtreeVisibility`: one pre-order pass over the subtree,
setting each visited cell's `isHidden` flag to `value`. -/
def setSubtreeVisibility (cells : Cells) (t : VTree) (value : Bool) : Cells :=
  (preOrderRefs t).foldl (fun c r => updateHidden c r value) cells

theorem foldl_updateHidden (v : Bool) :
    ∀ (l : List String) (cells : Cells) (r : String),
      (l.foldl (fun c x => updateHidden c x v) cells) r =
        if r ∈ l then { cells r with isHidden := v } else cells r := by
  intro l
  induction l with
  | nil => intro cells r; simp
  | cons a l ih =>
    intro cells r
    rw [List.foldl_cons, ih]
    by_cases hl : r ∈ l
    · by_cases ha : r = a <;> simp [updateHidden, hl, ha]
    · by_cases ha : r = a <;> simp [updateHidden, hl, ha]

/-- Claim C3: `setSubtreeVisibility(root, hidden)` sets `isHidden` to
`hidden` on the cell of the root and of every descendant (and to the
opposite value on none of them), leaves every other cell unchanged, and is
idempotent. -/
theorem setSubtreeVisibility_correct (cells : Cells) (t : VTree) (value : Bool) :
    (∀ r ∈ preOrderRefs t,
      setSubtreeVisibility cells t value r = { cells r with isHidden := value }) ∧
    (∀ r ∉ preOrderRefs t, setSubtreeVisibility cells t value r = cells r) ∧
    setSubtreeVisibility (setSubtreeVisibility cells t value) t value =
      setSubtreeVisibility cells t value := by
  refine ⟨?_, ?_, ?_⟩
  · intro r hr
    rw [setSubtreeVisibility, foldl_updateHidden, if_pos hr]
  · intro r hr
    rw [setSubtreeVisibility, foldl_updateHidden, if_neg hr]
  · funext r
    rw [setSubtreeVisibility, setSubtreeVisibility, foldl_updateHidden,
      foldl_updateHidden]
    by_cases hr : r ∈ preOrderRefs t <;> simp [hr]

/-- Witness for C3: on a concrete two-level subtree with all cells visible,
hiding the subtree hides the root's child's cell, leaves an outside ref
unchanged, and a second pass changes nothing. -/
theorem setSubtreeVisibility_witness :
    ("b" ∈ preOrderRefs (VTree.node "a" [VTree.node "b" []]) ∧
      setSubtreeVisibility (fun _ => ⟨false, false, false⟩)
        (VTree.node "a" [VTree.node "b" []]) true "b" =
        { (fun (_ : String) => (⟨false, false, false⟩ : CellState)) "b" with
            isHidden := true }) ∧
    ("z" ∉ preOrderRefs (VTree.node "a" [VTree.node "b" []]) ∧
      setSubtreeVisibility (fun _ => ⟨false, false, false⟩)
        (VTree.node "a" [VTree.node "b" []]) true "z" =
        (fun (_ : String) => (⟨false, false, false⟩ : CellState)) "z") ∧
    setSubtreeVisibility
        (setSubtreeVisibility (fun _ => ⟨false, false, false⟩)
          (VTree.node "a" [VTree.node "b" []]) true)
        (VTree.node "a" [VTree.node "b" []]) true =
      setSubtreeVisibility (fun _ => ⟨false, false, false⟩)
        (VTree.node "a" [VTree.node "b" []]) true :=
  ⟨⟨by decide,
    (setSubtreeVisibility_correct (fun _ => ⟨false, false, false⟩)
      (VTree.node "a" [VTree.node "b" []]) true).1 "b" (by decide)⟩,
   ⟨by decide,
    (setSubtreeVisibility_correct (fun _ => ⟨false, false, false⟩)
      (VTree.node "a" [VTree.node "b" []]) true).2.1 "z" (by decide)⟩,
   (setSubtreeVisibility_correct (fun _ => ⟨false, false, false⟩)
      (VTree.node "a" [VTree.node "b" []]) true).2.2⟩

/-! ## Ghost cascade removal (RemoveObject with removeParentGhosts) -/

/-- A transform node as the walk reads it: reference, parent reference, and
the transform state's `isGhost` flag. -/
structure PTransform where
  ref : String
  parent : String
  isGhost : Bool
deriving DecidableEq

/-- A state tree's transform table. -/
structure PTree where
  transforms : List PTransform
deriving DecidableEq

/-- Embeds `tree.transforms.get(r)`. -/
def findT (t : PTree) (r : String) : Option PTransform :=
  t.transforms.find? (fun x => x.ref == r)

/-- Embeds `tree.children.get(p).size`: the number of nodes whose parent is
`p`, the root not counting as its own child. -/
def childrenCount (t : PTree) (p : String) : Nat :=
  (t.transforms.filter (fun x => x.parent == p && !(x.ref == x.parent))).length

/-- Embeds the `while (true)` loop of the RemoveObject handler: walk upward
from `curr` and return the reference finally passed to `remove`.  Fuel
bounds the walk; the handler always calls it with the tree's node count. -/
def ghostWalk (t : PTree) : Nat → PTransform → String
  | 0, curr => curr.ref
  | n + 1, curr =>
      if curr.parent = curr.ref ∨ childrenCount t curr.parent > 1 then curr.ref
      else
        match findT t curr.parent with
        | none => curr.ref
        | some par => if par.isGhost then ghostWalk t n par else curr.ref

/-- Embeds the `removeParentGhosts` branch of the RemoveObject handler: the
reference whose subtree is actually deleted, or `none` when `ref` is not in
the tree (where the handler would fault). -/
def removeTargetGhosts (t : PTree) (ref : String) : Option String :=
  match findT t ref with
  | none => none
  | some curr =>
      if curr.parent = ref then some ref
      else some (ghostWalk t t.transforms.length curr)

/-- Follows the claim's wording: walk upward while the immediate parent is
not the tree root, has exactly one child, and is flagged `isGhost`; return
the highest such ancestor (or the start node when there is none). -/
def specGhostWalk (t : PTree) : Nat → PTransform → String
  | 0, curr => curr.ref
  | n + 1, curr =>
      match findT t curr.parent with
      | none => curr.ref
      | some par =>
          if par.parent = par.ref ∨ childrenCount t curr.parent ≠ 1 ∨ par.isGhost = false
          then curr.ref
          else specGhostWalk t n par

/-- The claim's removal target: the highest ghost-only single-child ancestor
below the root, instead of `ref` itself. -/
def specRemoveTarget (t : PTree) (ref : String) : Option String :=
  match findT t ref with
  | none => none
  | some curr => some (specGhostWalk t t.transforms.length curr)

/-- Modelled from the spec: `delete(ref)` removes the node and its entire
subtree (`state.build().delete`, outside src).  A node is deleted when `r`
occurs on its ancestor chain. -/
def ancestorChain (t : PTree) : Nat → String → List String
  | 0, x => [x]
  | n + 1, x =>
      x :: (match findT t x with
            | some tr => if tr.parent = x then [] else ancestorChain t n tr.parent
            | none => [])

/-- Modelled from the spec: the tree left after deleting the subtree rooted
at `r`. -/
def deleteSubtree (t : PTree) (r : String) : PTree :=
  ⟨t.transforms.filter (fun x => !(ancestorChain t t.transforms.length x.ref).contains r)⟩

theorem findT_eq_some {t : PTree} {r : String} {x : PTransform}
    (h : findT t r = some x) : x ∈ t.transforms ∧ x.ref = r := by
  refine ⟨List.mem_of_find?_eq_some h, ?_⟩
  have := List.find?_some h
  simpa using this

theorem find?_ref_self :
    ∀ (l : List PTransform) (x : PTransform),
      (l.map (fun y => y.ref)).Nodup → x ∈ l →
      l.find? (fun y => y.ref == x.ref) = some x := by
  intro l
  induction l with
  | nil => intro x _ hx; cases hx
  | cons a l ih =>
    intro x hnd hx
    rw [List.map_cons, List.nodup_cons] at hnd
    rcases List.mem_cons.mp hx with h | h
    · subst h
      simp [List.find?]
    · have hne : (a.ref == x.ref) = false := by
        apply beq_eq_false_iff_ne.mpr
        intro hEq
        exact hnd.1 (hEq ▸ List.mem_map_of_mem (fun y => y.ref) h)
      rw [List.find?_cons, hne]
      exact ih x hnd.2 h

theorem findT_self {t : PTree} {x : PTransform}
    (hnd : (t.transforms.map (fun x => x.ref)).Nodup)
    (hx : x ∈ t.transforms) : findT t x.ref = some x :=
  find?_ref_self t.transforms x hnd hx

theorem childrenCount_pos {t : PTree} {curr : PTransform}
    (hc : curr ∈ t.transforms) (h1 : curr.parent ≠ curr.ref) :
    0 < childrenCount t curr.parent := by
  have hmem : curr ∈ t.transforms.filter
      (fun x => x.parent == curr.parent && !(x.ref == x.parent)) := by
    refine List.mem_filter.mpr ⟨hc, ?_⟩
    simp [Ne.symm h1]
  calc 0 < 1 := Nat.one_pos
    _ ≤ _ := List.length_pos.mpr (List.ne_nil_of_mem hmem) |> Nat.succ_le_of_lt |>.trans
        (Nat.le_refl _) |>.trans (Nat.le_refl _)

theorem ghostWalk_eq_specGhostWalk (t : PTree)
    (hwf : ∀ x ∈ t.transforms, (findT t x.parent).isSome = true)
    (hnd : (t.transforms.map (fun x => x.ref)).Nodup)
    (hroot : ∀ x ∈ t.transforms, x.parent = x.ref → x.isGhost = false) :
    ∀ (n : Nat) (curr : PTransform), curr ∈ t.transforms →
      ghostWalk t n curr = specGhostWalk t n curr := by
  intro n
  induction n with
  | zero => intro curr _; rfl
  | succ n ih =>
    intro curr hc
    by_cases h1 : curr.parent = curr.ref
    · have hfind : findT t curr.ref = some curr := findT_self hnd hc
      simp [ghostWalk, specGhostWalk, hfind, h1]
    · obtain ⟨par, hfind⟩ := Option.isSome_iff_exists.mp (hwf curr hc)
      have hparmem := (findT_eq_some hfind).1
      by_cases h2 : childrenCount t curr.parent > 1
      · simp [ghostWalk, specGhostWalk, hfind, h2, Nat.ne_of_gt h2]
      · have hcc : childrenCount t curr.parent = 1 :=
          Nat.le_antisymm (Nat.lt_succ_iff.mp (Nat.not_lt.mp h2 |> Nat.lt_succ_of_le))
            (childrenCount_pos hc h1)
        by_cases h3 : par.parent = par.ref
        · have hng : par.isGhost = false := hroot par hparmem h3
          simp [ghostWalk, specGhostWalk, hfind, h1, h2, h3, hng, hcc]
        · by_cases h4 : par.isGhost = true
          · have := ih par hparmem
            simp [ghostWalk, specGhostWalk, hfind, h1, h2, h3, h4, hcc, this]
          · simp [ghostWalk, specGhostWalk, hfind, h1, h2, h3, hcc,
              Bool.eq_false_iff.mpr (fun h => h4 h), h4]

/-- Claim C1 (amended): provided the tree root is not flagged `isGhost`,
removing a reference with the skip-ghost-ancestors option walks upward while
the immediate parent is not the tree root, has exactly one child, and is
flagged `isGhost`, and deletes the highest such ancestor instead of the
reference itself.  (When the root itself is ghost with a single child, the
code instead walks onto the root and deletes it — see the
counterexample.) -/
theorem removeObjectGhosts_skips_ghost_ancestors (t : PTree) (ref : String)
    (hwf : ∀ x ∈ t.transforms, (findT t x.parent).isSome = true)
    (hnd : (t.transforms.map (fun x => x.ref)).Nodup)
    (hroot : ∀ x ∈ t.transforms, x.parent = x.ref → x.isGhost = false) :
    removeTargetGhosts t ref = specRemoveTarget t ref := by
  rw [removeTargetGhosts, specRemoveTarget]
  cases hfind : findT t ref with
  | none => rfl
  | some curr =>
    have hcm := (findT_eq_some hfind).1
    have hcr := (findT_eq_some hfind).2
    by_cases hp : curr.parent = ref
    · cases hlen : t.transforms.length with
      | zero =>
        exfalso
        have := List.ne_nil_of_mem hcm
        exact this (List.length_eq_zero.mp hlen)
      | succ m =>
        have hfs : findT t curr.parent = some curr := by
          rw [hp, ← hcr]; exact findT_self hnd hcm
        have hpr : curr.parent = curr.ref := by rw [hp, hcr]
        simp [hp, specGhostWalk, hfind, hfs, hpr, hcr]
    · have hpr : ¬ curr.parent = curr.ref := by rw [hcr]; exact hp
      simp [hp, ghostWalk_eq_specGhostWalk t hwf hnd hroot _ curr hcm]

/-- Witness for C1 (amended): on the chain root → G1(ghost) → G2(ghost) → L
with a non-ghost root, the code and the claim agree, the deleted node is G1,
and deleting G1's subtree leaves only the root. -/
theorem removeObjectGhosts_witness :
    (∀ x ∈ (PTree.mk [⟨"root", "root", false⟩, ⟨"G1", "root", true⟩,
        ⟨"G2", "G1", true⟩, ⟨"L", "G2", false⟩]).transforms,
      (findT (PTree.mk [⟨"root", "root", false⟩, ⟨"G1", "root", true⟩,
        ⟨"G2", "G1", true⟩, ⟨"L", "G2", false⟩]) x.parent).isSome = true) ∧
    removeTargetGhosts (PTree.mk [⟨"root", "root", false⟩, ⟨"G1", "root", true⟩,
        ⟨"G2", "G1", true⟩, ⟨"L", "G2", false⟩]) "L" =
      specRemoveTarget (PTree.mk [⟨"root", "root", false⟩, ⟨"G1", "root", true⟩,
        ⟨"G2", "G1", true⟩, ⟨"L", "G2", false⟩]) "L" ∧
    removeTargetGhosts (PTree.mk [⟨"root", "root", false⟩, ⟨"G1", "root", true⟩,
        ⟨"G2", "G1", true⟩, ⟨"L", "G2", false⟩]) "L" = some "G1" ∧
    (deleteSubtree (PTree.mk [⟨"root", "root", false⟩, ⟨"G1", "root", true⟩,
        ⟨"G2", "G1", true⟩, ⟨"L", "G2", false⟩]) "G1").transforms.map
      (fun x => x.ref) = ["root"] :=
  ⟨by decide,
   removeObjectGhosts_skips_ghost_ancestors
     (PTree.mk [⟨"root", "root", false⟩, ⟨"G1", "root", true⟩,
        ⟨"G2", "G1", true⟩, ⟨"L", "G2", false⟩]) "L"
     (by decide) (by decide) (by decide),
   by decide, by decide⟩

/-- Counterexample for C1 as stated: on a tree whose root is flagged
`isGhost` and has exactly one child L, the handler walks onto the root and
deletes the root itself, while the claimed walk (which stops when the
immediate parent is the tree root) would delete L. -/
theorem removeObjectGhosts_counterexample :
    removeTargetGhosts (PTree.mk [⟨"root", "root", true⟩, ⟨"L", "root", false⟩]) "L" =
      some "root" ∧
    specRemoveTarget (PTree.mk [⟨"root", "root", true⟩, ⟨"L", "root", false⟩]) "L" =
      some "L" ∧
    removeTargetGhosts (PTree.mk [⟨"root", "root", true⟩, ⟨"L", "root", false⟩]) "L" ≠
      specRemoveTarget (PTree.mk [⟨"root", "root", true⟩, ⟨"L", "root", false⟩]) "L" := by
  refine ⟨by decide, by decide, by decide⟩

/-! ## Archive packaging and unpackaging (DownloadToFile / OpenFile) -/

/-- Embeds a JS record assignment `obj[k] = v`: replace the entry in place if
the key exists, append otherwise (JS string-keyed insertion order). -/
def objSet (m : List (String × Val)) (k : String) (v : Val) : List (String × Val) :=
  match m with
  | [] => [(k, v)]
  | e :: rest => if e.1 = k then (k, v) :: rest else e :: objSet rest k v

/-- Embeds a JS record read `obj[k]` (`undefined` becomes `none`). -/
def objGet (m : List (String × Val)) (k : String) : Option Val :=
  (m.find? (fun e => e.1 == k)).map (fun e => e.2)

/-- Embeds the DownloadToFile zip branch: build the `zipDataObj` record —
`state.json` first, one `assets/<id>` member per registered asset in
registry iteration order, and `assets.json` (the `[id, metadata]` index)
only when the `assets` array is non-empty. -/
def buildZipMembers (json : String) (assets : List AssetEntry) : List (String × Val) :=
  let m1 := assets.foldl (fun m a => objSet m ("assets/" ++ a.id) (Val.bin a.blob))
    [("state.json", Val.snap json)]
  if 0 < (assets.map (fun a => (a.id, a.meta))).length
  then objSet m1 "assets.json" (Val.idx (assets.map (fun a => (a.id, a.meta))))
  else m1

/-- Embeds `k.substring(k.indexOf('/') + 1)`: the portion of a member name
after the first `/`, or the whole name when it has none. -/
def afterFirstSlash (s : String) : String :=
  match s.data.dropWhile (fun c => c != '/') with
  | [] => s
  | _ :: rest => String.mk rest

/-- One step of the OpenFile `objectForEach` asset collection. -/
def collectStep (m : List (String × Val)) (e : String × Val) : List (String × Val) :=
  if e.1 = "state.json" ∨ e.1 = "assets.json" then m
  else objSet m (afterFirstSlash e.1) e.2

/-- Embeds the OpenFile asset collection: every member other than
`state.json`/`assets.json`, keyed by the part of its name after the first
slash. -/
def collectAssets (members : List (String × Val)) : List (String × Val) :=
  members.foldl collectStep []

/-- Embeds `file.name.toLowerCase().endsWith('json')`. -/
def isJsonName (s : String) : Bool :=
  List.isSuffixOf "json".data (s.data.map Char.toLower)

/-- JSON-parse of member content as a snapshot payload (platform codec). -/
def parseSnapVal : Val → Option String
  | Val.snap s => some s
  | _ => none

/-- JSON-parse of member content as the asset index (platform codec). -/
def parseIdxVal : Val → Option (List (String × String))
  | Val.idx e => some e
  | _ => none

/-- Parse of the (possibly missing) `state.json` member: a missing member
reads as the text `undefined`, whose JSON-parse fails. -/
def parseSnapMember : Option Val → Option String
  | some v => parseSnapVal v
  | none => none

/-- A file handed to OpenFile, observed through the two `readFromFile`
modes: its name, its content read as text, and its content read as a zip
archive (`none` when unzipping raises). -/
structure PFile where
  name : String
  textVal : Val
  zipMembers : Option (List (String × Val))
deriving DecidableEq

/-- Effects of the OpenFile archive branch, in order: registrations of the
recovered `[id, metadata]` pairs (each with the collected binary member for
that id), then applying the parsed state; a caught error logs instead. -/
def archiveEffects (members : List (String × Val)) : List SnapshotEffect :=
  match objGet members "assets.json" with
  | none =>
      match parseSnapMember (objGet members "state.json") with
      | some s => [SnapshotEffect.setSnapshot s]
      | none => [SnapshotEffect.logError]
  | some av =>
      match parseIdxVal av with
      | none => [SnapshotEffect.logError]
      | some entries =>
          (entries.map (fun p =>
            SnapshotEffect.register p.1 p.2 (objGet (collectAssets members) p.1))) ++
          (match parseSnapMember (objGet members "state.json") with
           | some s => [SnapshotEffect.setSnapshot s]
           | none => [SnapshotEffect.logError])

/-- Embeds the OpenFile handler: branch on the lowercased-name `json`
suffix; the whole body is wrapped in try/catch, so every failure turns into
a log effect. -/
def openFileEffects (f : PFile) : List SnapshotEffect :=
  if isJsonName f.name then
    match parseSnapVal f.textVal with
    | some s => [SnapshotEffect.setSnapshot s]
    | none => [SnapshotEffect.logError]
  else
    match f.zipMembers with
    | none => [SnapshotEffect.logError]
    | some members => archiveEffects members

/-- The archive file produced by the DownloadToFile zip branch, as OpenFile
later sees it (`<name>.zip` does not end in `json`). -/
def zipArchiveFile (members : List (String × Val)) : PFile :=
  ⟨"molstar_state.zip", Val.garbage, some members⟩

/-- The parse/structural failure conditions of OpenFile: unparseable JSON in
the json branch; in the archive branch an unreadable zip, a missing or
unparseable `state.json`, or an unparseable `assets.json`. -/
def openFailure (f : PFile) : Bool :=
  if isJsonName f.name then (parseSnapVal f.textVal).isNone
  else
    match f.zipMembers with
    | none => true
    | some members =>
        match objGet members "assets.json" with
        | some av =>
            (parseIdxVal av).isNone ||
              (parseSnapMember (objGet members "state.json")).isNone
        | none => (parseSnapMember (objGet members "state.json")).isNone

/-! ### String and record lemmas -/

theorem strData_append (a b : String) : (a ++ b).data = a.data ++ b.data := by
  cases a; cases b; rfl

theorem str_eq_iff_data {a b : String} : a = b ↔ a.data = b.data := by
  cases a
  cases b
  constructor
  · intro h
    injection h
  · intro h
    exact congrArg String.mk h

theorem append_ne_of_getElem {l₁ l₂ r : List Char} {n : Nat}
    (hn : n < l₁.length) (hne : l₁[n]? ≠ r[n]?) : l₁ ++ l₂ ≠ r := by
  intro h
  apply hne
  rw [← h, List.getElem?_append_left hn]

theorem assetsKey_ne_state (i : String) : ("assets/" ++ i) ≠ "state.json" := by
  intro h
  have hd : "assets/".data ++ i.data = "state.json".data := by
    rw [← strData_append, h]
  exact append_ne_of_getElem (n := 0) (by decide) (by decide) hd

theorem assetsKey_ne_idx (i : String) : ("assets/" ++ i) ≠ "assets.json" := by
  intro h
  have hd : "assets/".data ++ i.data = "assets.json".data := by
    rw [← strData_append, h]
  exact append_ne_of_getElem (n := 6) (by decide) (by decide) hd

theorem assetsKey_inj {i j : String} (h : "assets/" ++ i = "assets/" ++ j) : i = j := by
  rw [str_eq_iff_data, strData_append, strData_append] at h
  exact str_eq_iff_data.mpr (List.append_cancel_left h)

theorem dropWhile_until_slash :
    ∀ (l₁ l₂ : List Char), (∀ c ∈ l₁, c ≠ '/') →
      List.dropWhile (fun c => c != '/') (l₁ ++ '/' :: l₂) = '/' :: l₂ := by
  intro l₁
  induction l₁ with
  | nil => intro l₂ _; simp [List.dropWhile_cons]
  | cons c l ih =>
    intro l₂ h
    rw [List.cons_append, List.dropWhile_cons]
    have hc : (c != '/') = true := by
      simp [bne]
      exact h c (List.mem_cons_self c l)
    rw [hc]
    exact ih l₂ (fun x hx => h x (List.mem_cons_of_mem c hx))

theorem afterFirstSlash_noSlash {k : String} (h : ∀ c ∈ k.data, c ≠ '/') :
    afterFirstSlash k = k := by
  rw [afterFirstSlash]
  have hnil : k.data.dropWhile (fun c => c != '/') = [] := by
    apply List.dropWhile_eq_nil_iff.mpr
    intro x hx
    simp [bne]
    exact h x hx
  rw [hnil]

theorem afterFirstSlash_append {a b : String} (h : ∀ c ∈ a.data, c ≠ '/') :
    afterFirstSlash (a ++ "/" ++ b) = b := by
  rw [afterFirstSlash]
  have hdata : (a ++ "/" ++ b).data = a.data ++ '/' :: b.data := by
    rw [strData_append, strData_append]
    simp
  rw [hdata, dropWhile_until_slash a.data b.data h]

theorem afterFirstSlash_assets (i : String) :
    afterFirstSlash ("assets/" ++ i) = i := by
  have h : ("assets/" ++ i) = "assets" ++ "/" ++ i := by
    rw [str_eq_iff_data, strData_append, strData_append, strData_append]
    have hsl : "assets/".data = "assets".data ++ "/".data := by decide
    rw [hsl, List.append_assoc]
  rw [h]
  exact afterFirstSlash_append (by decide)

theorem objSet_fresh {m : List (String × Val)} {k : String} {v : Val}
    (h : ∀ e ∈ m, e.1 ≠ k) : objSet m k v = m ++ [(k, v)] := by
  induction m with
  | nil => rfl
  | cons e rest ih =>
    rw [objSet]
    rw [if_neg (h e (List.mem_cons_self e rest))]
    rw [ih (fun x hx => h x (List.mem_cons_of_mem e hx))]
    rfl

theorem objGet_cons (e : String × Val) (m : List (String × Val)) (k : String) :
    objGet (e :: m) k = if e.1 = k then some e.2 else objGet m k := by
  by_cases h : e.1 = k <;> simp [objGet, List.find?_cons, h]

theorem objGet_append_of_ne {m₁ m₂ : List (String × Val)} {k : String}
    (h : ∀ e ∈ m₁, e.1 ≠ k) : objGet (m₁ ++ m₂) k = objGet m₂ k := by
  induction m₁ with
  | nil => rfl
  | cons e rest ih =>
    rw [List.cons_append, objGet_cons, if_neg (h e (List.mem_cons_self e rest))]
    exact ih (fun x hx => h x (List.mem_cons_of_mem e hx))

theorem objGet_of_mem_nodup :
    ∀ (l : List (String × Val)) (k : String) (v : Val),
      (l.map (fun e => e.1)).Nodup → (k, v) ∈ l → objGet l k = some v := by
  intro l
  induction l with
  | nil => intro k v _ hm; cases hm
  | cons e rest ih =>
    intro k v hnd hm
    rw [List.map_cons, List.nodup_cons] at hnd
    rcases List.mem_cons.mp hm with h | h
    · rw [← h, objGet_cons, if_pos rfl]
    · have hne : e.1 ≠ k := by
        intro hEq
        apply hnd.1
        have : (k, v).1 ∈ rest.map (fun e => e.1) :=
          List.mem_map_of_mem (fun e => e.1) h
        rw [← hEq] at this
        exact this
      rw [objGet_cons, if_neg hne]
      exact ih k v hnd.2 h

theorem foldl_objSet_assets :
    ∀ (assets : List AssetEntry) (m : List (String × Val)),
      (assets.map (fun a => a.id)).Nodup →
      (∀ a ∈ assets, ∀ e ∈ m, e.1 ≠ "assets/" ++ a.id) →
      assets.foldl (fun m a => objSet m ("assets/" ++ a.id) (Val.bin a.blob)) m =
        m ++ assets.map (fun a => ("assets/" ++ a.id, Val.bin a.blob)) := by
  intro assets
  induction assets with
  | nil => intro m _ _; simp
  | cons a rest ih =>
    intro m hnd hfr
    rw [List.map_cons, List.nodup_cons] at hnd
    rw [List.foldl_cons,
      objSet_fresh (fun e he => hfr a (List.mem_cons_self a rest) e he)]
    rw [ih (m ++ [("assets/" ++ a.id, Val.bin a.blob)]) hnd.2 ?_]
    · simp
    · intro b hb e he
      rcases List.mem_append.mp he with h | h
      · exact hfr b (List.mem_cons_of_mem a hb) e h
      · rw [List.mem_singleton.mp h]
        intro hEq
        apply hnd.1
        have : a.id = b.id := assetsKey_inj hEq
        rw [this]
        exact List.mem_map_of_mem (fun x => x.id) hb

theorem buildZip_shape (json : String) (assets : List AssetEntry)
    (hnd : (assets.map (fun a => a.id)).Nodup) :
    buildZipMembers json assets =
      [("state.json", Val.snap json)] ++
        assets.map (fun a => ("assets/" ++ a.id, Val.bin a.blob)) ++
        (if assets.isEmpty then ([] : List (String × Val))
         else [("assets.json", Val.idx (assets.map (fun a => (a.id, a.meta))))]) := by
  rw [buildZipMembers]
  have hfold := foldl_objSet_assets assets [("state.json", Val.snap json)] hnd ?_
  · rw [hfold]
    cases assets with
    | nil => simp
    | cons a rest =>
      rw [if_pos (by simp)]
      have hfr2 : ∀ e ∈ [("state.json", Val.snap json)] ++
          (a :: rest).map (fun x => ("assets/" ++ x.id, Val.bin x.blob)),
          e.1 ≠ "assets.json" := by
        intro e he
        rcases List.mem_append.mp he with h | h
        · rw [List.mem_singleton.mp h]
          exact (by decide : ("state.json" : String) ≠ "assets.json")
        · rcases List.mem_map.mp h with ⟨b, _, hb⟩
          rw [← hb]
          exact assetsKey_ne_idx b.id
      rw [objSet_fresh hfr2]
      simp [List.isEmpty]
  · intro a _ e he
    rw [List.mem_singleton.mp he]
    exact fun hEq => assetsKey_ne_state a.id hEq.symm

theorem collectStep_special {m : List (String × Val)} {e : String × Val}
    (h : e.1 = "state.json" ∨ e.1 = "assets.json") : collectStep m e = m := by
  rw [collectStep, if_pos h]

theorem collectStep_asset {m : List (String × Val)} {e : String × Val}
    (h1 : e.1 ≠ "state.json") (h2 : e.1 ≠ "assets.json") :
    collectStep m e = objSet m (afterFirstSlash e.1) e.2 := by
  rw [collectStep, if_neg (by intro h; rcases h with h | h; exact h1 h; exact h2 h)]

theorem foldl_collect_assets :
    ∀ (assets : List AssetEntry) (acc : List (String × Val)),
      (assets.map (fun a => a.id)).Nodup →
      (∀ a ∈ assets, ∀ e ∈ acc, e.1 ≠ a.id) →
      (assets.map (fun a => ("assets/" ++ a.id, Val.bin a.blob))).foldl collectStep acc =
        acc ++ assets.map (fun a => (a.id, Val.bin a.blob)) := by
  intro assets
  induction assets with
  | nil => intro acc _ _; simp
  | cons a rest ih =>
    intro acc hnd hfr
    rw [List.map_cons, List.nodup_cons] at hnd
    rw [List.map_cons, List.foldl_cons,
      collectStep_asset (assetsKey_ne_state a.id) (assetsKey_ne_idx a.id)]
    have hset : objSet acc (afterFirstSlash ("assets/" ++ a.id, Val.bin a.blob).1)
        ("assets/" ++ a.id, Val.bin a.blob).2 = acc ++ [(a.id, Val.bin a.blob)] := by
      have : afterFirstSlash ("assets/" ++ a.id, Val.bin a.blob).1 = a.id :=
        afterFirstSlash_assets a.id
      rw [this]
      exact objSet_fresh (fun e he => hfr a (List.mem_cons_self a rest) e he)
    rw [hset]
    rw [ih (acc ++ [(a.id, Val.bin a.blob)]) hnd.2 ?_]
    · simp
    · intro b hb e he
      rcases List.mem_append.mp he with h | h
      · exact hfr b (List.mem_cons_of_mem a hb) e h
      · rw [List.mem_singleton.mp h]
        intro hEq
        apply hnd.1
        have hEq' : a.id = b.id := hEq
        rw [hEq']
        exact List.mem_map_of_mem (fun x => x.id) hb

theorem collectAssets_buildZip (json : String) (assets : List AssetEntry)
    (hnd : (assets.map (fun a => a.id)).Nodup) :
    collectAssets (buildZipMembers json assets) =
      assets.map (fun a => (a.id, Val.bin a.blob)) := by
  rw [buildZip_shape json assets hnd, collectAssets]
  rw [List.foldl_append, List.foldl_append]
  have h1 : List.foldl collectStep [] [("state.json", Val.snap json)] =
      ([] : List (String × Val)) := by
    rw [List.foldl_cons, collectStep_special (Or.inl rfl), List.foldl_nil]
  rw [h1, foldl_collect_assets assets [] hnd (by intro a _ e he; cases he)]
  cases assets with
  | nil => simp
  | cons a rest =>
    rw [if_neg (by simp [List.isEmpty])]
    rw [List.foldl_cons, collectStep_special (Or.inr rfl), List.foldl_nil]
    simp

theorem objGet_buildZip_state (json : String) (assets : List AssetEntry)
    (hnd : (assets.map (fun a => a.id)).Nodup) :
    objGet (buildZipMembers json assets) "state.json" = some (Val.snap json) := by
  rw [buildZip_shape json assets hnd]
  rw [List.append_assoc, List.singleton_append, objGet_cons, if_pos rfl]

theorem objGet_buildZip_idx_nil (json : String) :
    objGet (buildZipMembers json []) "assets.json" = none := by
  rw [buildZip_shape json [] (by simp)]
  simp [objGet]

theorem objGet_buildZip_idx (json : String) (assets : List AssetEntry)
    (hnd : (assets.map (fun a => a.id)).Nodup) (hne : assets ≠ []) :
    objGet (buildZipMembers json assets) "assets.json" =
      some (Val.idx (assets.map (fun a => (a.id, a.meta)))) := by
  rw [buildZip_shape json assets hnd]
  rw [if_neg (by simp [List.isEmpty_iff, hne])]
  rw [List.append_assoc, List.singleton_append, objGet_cons,
    if_neg (by decide : ("state.json" : String) ≠ "assets.json")]
  rw [objGet_append_of_ne ?_]
  · rw [objGet_cons, if_pos rfl]
  · intro e he
    rcases List.mem_map.mp he with ⟨b, _, hb⟩
    rw [← hb]
    exact assetsKey_ne_idx b.id

/-- Claim C4: bundled-archive packaging writes `state.json` first, then one
`assets/<assetId>` binary member per registered asset in registry iteration
order, then `assets.json` last, the index being present exactly when at
least one asset member was written (absent for zero assets). -/
theorem downloadToFile_archive_order (json : String) (assets : List AssetEntry)
    (hnd : (assets.map (fun a => a.id)).Nodup) :
    buildZipMembers json assets =
      [("state.json", Val.snap json)] ++
        assets.map (fun a => ("assets/" ++ a.id, Val.bin a.blob)) ++
        (if assets.isEmpty then ([] : List (String × Val))
         else [("assets.json", Val.idx (assets.map (fun a => (a.id, a.meta))))]) :=
  buildZip_shape json assets hnd

/-- Witness for C4: packaging two concrete assets yields exactly the four
members in order, and packaging zero assets omits `assets.json`. -/
theorem downloadToFile_archive_order_witness :
    (([⟨"a1", "m1", [1]⟩, ⟨"a2", "m2", [2]⟩] : List AssetEntry).map
        (fun a => a.id)).Nodup ∧
    buildZipMembers "J" [⟨"a1", "m1", [1]⟩, ⟨"a2", "m2", [2]⟩] =
      [("state.json", Val.snap "J"), ("assets/a1", Val.bin [1]),
        ("assets/a2", Val.bin [2]),
        ("assets.json", Val.idx [("a1", "m1"), ("a2", "m2")])] ∧
    buildZipMembers "J" [] = [("state.json", Val.snap "J")] :=
  ⟨by decide,
    (downloadToFile_archive_order "J" [⟨"a1", "m1", [1]⟩, ⟨"a2", "m2", [2]⟩]
      (by decide)).trans (by decide),
    (downloadToFile_archive_order "J" [] (by decide)).trans (by decide)⟩

theorem archiveEffects_with_idx {members : List (String × Val)}
    {entries : List (String × String)} {s : String}
    (hidx : objGet members "assets.json" = some (Val.idx entries))
    (hst : parseSnapMember (objGet members "state.json") = some s) :
    archiveEffects members =
      (entries.map (fun p =>
        SnapshotEffect.register p.1 p.2 (objGet (collectAssets members) p.1))) ++
      [SnapshotEffect.setSnapshot s] := by
  rw [archiveEffects, hidx]
  simp only [parseIdxVal]
  rw [hst]

/-- Claim C5: in every archive whose `assets.json` parses, all recovered
`[id, metadata]` pairs are registered (each with the collected binary member
for its id) strictly before the `state.json` payload is applied; and
packaging N id-distinct assets then unpackaging registers exactly those N
assets, each with its own binary, before the single `setSnapshot`. -/
theorem openFile_registers_assets_before_apply :
    (∀ (f : PFile) (members : List (String × Val))
        (entries : List (String × String)) (s : String),
      isJsonName f.name = false → f.zipMembers = some members →
      objGet members "assets.json" = some (Val.idx entries) →
      parseSnapMember (objGet members "state.json") = some s →
      openFileEffects f =
        (entries.map (fun p =>
          SnapshotEffect.register p.1 p.2 (objGet (collectAssets members) p.1))) ++
        [SnapshotEffect.setSnapshot s]) ∧
    (∀ (json : String) (assets : List AssetEntry),
      (assets.map (fun a => a.id)).Nodup →
      openFileEffects (zipArchiveFile (buildZipMembers json assets)) =
        (assets.map (fun a =>
          SnapshotEffect.register a.id a.meta (some (Val.bin a.blob)))) ++
        [SnapshotEffect.setSnapshot json]) := by
  constructor
  · intro f members entries s hname hzip hidx hst
    rw [openFileEffects, if_neg (by rw [hname]; intro h; cases h), hzip]
    exact archiveEffects_with_idx hidx hst
  · intro json assets hnd
    have hname : isJsonName "molstar_state.zip" = false := by decide
    rw [openFileEffects]
    rw [if_neg (by rw [zipArchiveFile, hname]; intro h; cases h)]
    have hst : parseSnapMember (objGet (buildZipMembers json assets) "state.json") =
        some json := by
      rw [objGet_buildZip_state json assets hnd]
      rfl
    cases hass : assets with
    | nil =>
      rw [zipArchiveFile]
      simp only []
      rw [archiveEffects, objGet_buildZip_idx_nil json]
      rw [hass] at hst
      rw [hst]
      simp
    | cons a rest =>
      rw [zipArchiveFile]
      simp only []
      rw [← hass]
      have hidx := objGet_buildZip_idx json assets hnd (by rw [hass]; intro h; cases h)
      rw [archiveEffects_with_idx hidx hst]
      have hcoll := collectAssets_buildZip json assets hnd
      rw [hcoll, List.map_map]
      have hmaps : ∀ b ∈ assets,
          ((fun p : String × String =>
              SnapshotEffect.register p.1 p.2
                (objGet (assets.map (fun a => (a.id, Val.bin a.blob))) p.1)) ∘
            (fun a : AssetEntry => (a.id, a.meta))) b =
          SnapshotEffect.register b.id b.meta (some (Val.bin b.blob)) := by
        intro b hb
        have hget : objGet (assets.map (fun a => (a.id, Val.bin a.blob))) b.id =
            some (Val.bin b.blob) := by
          apply objGet_of_mem_nodup
          · rw [List.map_map]
            have : ((fun e : String × Val => e.1) ∘
                (fun a : AssetEntry => (a.id, Val.bin a.blob))) =
                fun a : AssetEntry => a.id := rfl
            rw [this]
            exact hnd
          · exact List.mem_map_of_mem (fun a => (a.id, Val.bin a.blob)) hb
        simp only [Function.comp]
        rw [hget]
      rw [List.map_congr_left hmaps]

/-- Witness for C5: packaging one concrete asset and opening the archive
registers that asset and then applies the state, in that order. -/
theorem openFile_registers_assets_before_apply_witness :
    (([⟨"x", "mx", [7]⟩] : List AssetEntry).map (fun a => a.id)).Nodup ∧
    openFileEffects (zipArchiveFile (buildZipMembers "J" [⟨"x", "mx", [7]⟩])) =
      [SnapshotEffect.register "x" "mx" (some (Val.bin [7])),
        SnapshotEffect.setSnapshot "J"] :=
  ⟨by decide,
    (openFile_registers_assets_before_apply.2 "J" [⟨"x", "mx", [7]⟩]
      (by decide)).trans (by decide)⟩

/-- Claim C6: whenever a parse or structural failure occurs during OpenFile,
the error is caught and logged, and no `setSnapshot` is performed — the
committed tree (which changes only through `setSnapshot`) is left
unmodified. -/
theorem openFile_failure_noop (f : PFile) (h : openFailure f = true) :
    SnapshotEffect.logError ∈ openFileEffects f ∧
    ∀ s, SnapshotEffect.setSnapshot s ∉ openFileEffects f := by
  rw [openFailure] at h
  rw [openFileEffects]
  by_cases hj : isJsonName f.name = true
  · rw [if_pos hj] at h ⊢
    cases hv : parseSnapVal f.textVal with
    | some s => rw [hv] at h; simp at h
    | none => simp
  · have hj' : isJsonName f.name = false := by
      cases hb : isJsonName f.name
      · rfl
      · exact absurd hb hj
    rw [if_neg (by rw [hj']; intro hc; cases hc)] at h ⊢
    cases hz : f.zipMembers with
    | none => simp
    | some members =>
      simp only [hz] at h ⊢
      rw [archiveEffects]
      cases hidx : objGet members "assets.json" with
      | none =>
        simp only [hidx] at h ⊢
        cases hst : parseSnapMember (objGet members "state.json") with
        | some s => rw [hst] at h; simp at h
        | none => simp only [hst]; simp
      | some av =>
        simp only [hidx] at h ⊢
        cases hpi : parseIdxVal av with
        | none => simp only [hpi]; simp
        | some entries =>
          simp only [hpi, Option.isNone_some, Bool.false_or] at h
          simp only [hpi]
          cases hst : parseSnapMember (objGet members "state.json") with
          | some s => rw [hst] at h; simp at h
          | none =>
            simp only [hst]
            constructor
            · exact List.mem_append.mpr (Or.inr (List.mem_singleton.mpr rfl))
            · intro s hs
              rcases List.mem_append.mp hs with hmem | hmem
              · rcases List.mem_map.mp hmem with ⟨p, _, hp⟩
                cases hp
              · cases List.mem_singleton.mp hmem

/-- Witness for C6: a json-named file whose content fails to parse logs the
error and performs no `setSnapshot`. -/
theorem openFile_failure_noop_witness :
    openFailure ⟨"broken.json", Val.garbage, none⟩ = true ∧
    SnapshotEffect.logError ∈ openFileEffects ⟨"broken.json", Val.garbage, none⟩ ∧
    SnapshotEffect.setSnapshot "J" ∉ openFileEffects ⟨"broken.json", Val.garbage, none⟩ :=
  ⟨by decide,
    (openFile_failure_noop ⟨"broken.json", Val.garbage, none⟩ (by decide)).1,
    (openFile_failure_noop ⟨"broken.json", Val.garbage, none⟩ (by decide)).2 "J"⟩

/-- Claim C9: OpenFile takes the plain-JSON path exactly when the lowercased
filename ends with the four characters `json` (case-insensitively, with no
dot required, so `foo.molJSON` and `statejson` qualify); every other file is
processed as a bundled archive. -/
theorem openFile_format_detection :
    (∀ f : PFile, isJsonName f.name = true →
      openFileEffects f =
        (match parseSnapVal f.textVal with
         | some s => [SnapshotEffect.setSnapshot s]
         | none => [SnapshotEffect.logError])) ∧
    (∀ f : PFile, isJsonName f.name = false →
      openFileEffects f =
        (match f.zipMembers with
         | none => [SnapshotEffect.logError]
         | some members => archiveEffects members)) ∧
    (∀ s t : String, t.data.map Char.toLower = "json".data →
      isJsonName (s ++ t) = true) ∧
    isJsonName "foo.molJSON" = true ∧
    isJsonName "statejson" = true ∧
    isJsonName "snapshot.zip" = false := by
  refine ⟨?_, ?_, ?_, by decide, by decide, by decide⟩
  · intro f hj
    rw [openFileEffects, if_pos hj]
  · intro f hj
    rw [openFileEffects, if_neg (by rw [hj]; intro hc; cases hc)]
  · intro s t ht
    rw [isJsonName, strData_append, List.map_append, ht]
    simp [List.isSuffixOf]

/-- Witness for C9: a file whose name lowercases to a `json` suffix without
being a `.json` extension takes the plain-JSON path. -/
theorem openFile_format_detection_witness :
    isJsonName "myState.MolJSON" = true ∧
    openFileEffects ⟨"myState.MolJSON", Val.snap "S", none⟩ =
      [SnapshotEffect.setSnapshot "S"] :=
  ⟨by decide,
    (openFile_format_detection.1 ⟨"myState.MolJSON", Val.snap "S", none⟩
      (by decide)).trans (by decide)⟩

theorem keys_objSet :
    ∀ (m : List (String × Val)) (k : String) (v : Val) (x : String),
      x ∈ (objSet m k v).map (fun e => e.1) ↔
        x ∈ m.map (fun e => e.1) ∨ x = k := by
  intro m
  induction m with
  | nil => intro k v x; simp [objSet]
  | cons e rest ih =>
    intro k v x
    rw [objSet]
    by_cases h : e.1 = k
    · rw [if_pos h, List.map_cons, List.map_cons]
      rw [← h]
      simp only [List.mem_cons]
      tauto
    · rw [if_neg h, List.map_cons, List.map_cons]
      simp only [List.mem_cons, ih]
      tauto

theorem keys_collect_fold :
    ∀ (members : List (String × Val)) (acc : List (String × Val)) (key : String),
      key ∈ (members.foldl collectStep acc).map (fun e => e.1) ↔
        key ∈ acc.map (fun e => e.1) ∨
          ∃ e ∈ members, ¬(e.1 = "state.json" ∨ e.1 = "assets.json") ∧
            afterFirstSlash e.1 = key := by
  intro members
  induction members with
  | nil => intro acc key; simp
  | cons e ms ih =>
    intro acc key
    rw [List.foldl_cons]
    by_cases hsp : e.1 = "state.json" ∨ e.1 = "assets.json"
    · rw [collectStep_special hsp, ih]
      simp only [List.mem_cons]
      constructor
      · rintro (h | ⟨x, hx, hne, hkey⟩)
        · exact Or.inl h
        · exact Or.inr ⟨x, Or.inr hx, hne, hkey⟩
      · rintro (h | ⟨x, hx, hne, hkey⟩)
        · exact Or.inl h
        · rcases hx with hx | hx
          · exact absurd (hx ▸ hsp) hne
          · exact Or.inr ⟨x, hx, hne, hkey⟩
    · rw [collectStep_asset (fun hc => hsp (Or.inl hc)) (fun hc => hsp (Or.inr hc)), ih]
      rw [keys_objSet]
      simp only [List.mem_cons]
      constructor
      · rintro (⟨h | h⟩ | ⟨x, hx, hne, hkey⟩)
        · exact Or.inl h
        · exact Or.inr ⟨e, Or.inl rfl, hsp, h.symm⟩
        · exact Or.inr ⟨x, Or.inr hx, hne, hkey⟩
      · rintro (h | ⟨x, hx, hne, hkey⟩)
        · exact Or.inl (Or.inl h)
        · rcases hx with hx | hx
          · exact Or.inl (Or.inr (hx ▸ hkey).symm)
          · exact Or.inr ⟨x, hx, hne, hkey⟩

/-- Claim C10: every archive member other than `state.json`/`assets.json` is
collected keyed by the part of its name after the first slash (the whole
name when it has none), and the archive branch registers binaries only
through lookups at the ids listed in `assets.json`. -/
theorem openFile_asset_keys :
    (∀ k : String, (∀ c ∈ k.data, c ≠ '/') → afterFirstSlash k = k) ∧
    (∀ a b : String, (∀ c ∈ a.data, c ≠ '/') →
      afterFirstSlash (a ++ "/" ++ b) = b) ∧
    (∀ (members : List (String × Val)) (key : String),
      key ∈ (collectAssets members).map (fun e => e.1) ↔
        ∃ e ∈ members, ¬(e.1 = "state.json" ∨ e.1 = "assets.json") ∧
          afterFirstSlash e.1 = key) ∧
    (∀ (members : List (String × Val)) (i meta : String) (file : Option Val),
      SnapshotEffect.register i meta file ∈ archiveEffects members →
      ∃ entries, objGet members "assets.json" = some (Val.idx entries) ∧
        (i, meta) ∈ entries ∧ file = objGet (collectAssets members) i) := by
  refine ⟨fun k h => afterFirstSlash_noSlash h, fun a b h => afterFirstSlash_append h,
    ?_, ?_⟩
  · intro members key
    rw [collectAssets, keys_collect_fold]
    simp
  · intro members i meta file hmem
    rw [archiveEffects] at hmem
    cases hidx : objGet members "assets.json" with
    | none =>
      rw [hidx] at hmem
      cases hst : parseSnapMember (objGet members "state.json") with
      | some s => rw [hst] at hmem; cases List.mem_singleton.mp hmem
      | none => rw [hst] at hmem; cases List.mem_singleton.mp hmem
    | some av =>
      rw [hidx] at hmem
      cases av with
      | idx entries =>
        simp only [parseIdxVal] at hmem
        have hsplit := List.mem_append.mp hmem
        rcases hsplit with h | h
        · rcases List.mem_map.mp h with ⟨p, hp, heq⟩
          refine ⟨entries, rfl, ?_, ?_⟩
          · have h1 : p.1 = i := by injection heq
            have h2 : p.2 = meta := by
              injection heq with _ h2 _
            have : p = (i, meta) := by
              rw [← h1, ← h2]
            rw [← this]
            exact hp
          · have h1 : p.1 = i := by injection heq
            have h3 : objGet (collectAssets members) p.1 = file := by
              injection heq with _ _ h3
            rw [← h3, h1]
        · cases hst : parseSnapMember (objGet members "state.json") with
          | some s => rw [hst] at h; cases List.mem_singleton.mp h
          | none => rw [hst] at h; cases List.mem_singleton.mp h
      | snap s =>
        simp only [parseIdxVal] at hmem
        cases List.mem_singleton.mp hmem
      | bin b =>
        simp only [parseIdxVal] at hmem
        cases List.mem_singleton.mp hmem
      | garbage =>
        simp only [parseIdxVal] at hmem
        cases List.mem_singleton.mp hmem

/-- Witness for C10: a member named `assets/x1` is keyed `x1`; a slash-free
member name is kept whole. -/
theorem openFile_asset_keys_witness :
    ((∀ c ∈ "assets".data, c ≠ '/') ∧
      afterFirstSlash ("assets" ++ "/" ++ "x1") = "x1") ∧
    ((∀ c ∈ "plain.bin".data, c ≠ '/') ∧ afterFirstSlash "plain.bin" = "plain.bin") :=
  ⟨⟨by decide, openFile_asset_keys.2.1 "assets" "x1" (by decide)⟩,
   ⟨by decide, openFile_asset_keys.1 "plain.bin" (by decide)⟩⟩
